import Mathlib

/-!
Verification of the BackupTool core against its specification.

The Python modules under `src/core` are shallowly embedded:
* `src/core/file_analyzer.py` — inventories are association lists
  `List (String × FileInfo)` (a Python dict: unique keys, insertion
  order); `mtime` floats are modelled as rationals, which is exact for
  the arithmetic the code performs (subtraction and comparison against
  the literal 2).
* `src/core/backup_manager.py` — the strong comparator `_compare_files`
  and the orchestrator `perform_backup` (with an explicit schedule of
  asynchronous `stop()` events standing for the shared `_running` flag).
* `src/core/file_handler.py` — `delete_path` over an abstract
  filesystem tree, with `Path.rglob` modelled by the top-down sequence
  the CPython `**/*` glob produces.
* `src/core/file_queue.py` — the priority queue, embedding CPython's
  `heapq` algorithms (`_siftdown`, `_siftup`) verbatim over lists.
-/

set_option maxHeartbeats 1000000
set_option maxRecDepth 4000

namespace BackupTool

/-! ## file_analyzer.py -/

/-- A scan record: `files_info[rel_path] = {'size': …, 'mtime': …}`. -/
structure FileInfo where
  size : Nat
  mtime : ℚ
  deriving DecidableEq, Repr

/-- An inventory, i.e. a Python dict `relpath -> FileInfo` (unique keys,
insertion order). -/
abbrev Inventory := List (String × FileInfo)

namespace FileAnalyzer

/-- `FileAnalyzer.needs_update`: size mismatch, else `|Δmtime| > 2`. -/
def needs_update (src_info dest_info : FileInfo) : Bool :=
  if src_info.size ≠ dest_info.size then true
  else decide (|src_info.mtime - dest_info.mtime| > 2)

/-- The four buckets returned by `FileAnalyzer.analyze_differences`. -/
structure DiffResult where
  to_copy : List String
  to_update : List String
  to_delete : List String
  unchanged : List String
  deriving DecidableEq, Repr

/-- The first loop of `analyze_differences`: for each source relpath,
append it to `to_copy`, `to_update` or `unchanged`. -/
def analyzeSourceLoop (dest_files : Inventory) :
    Inventory → DiffResult → DiffResult
  | [], acc => acc
  | (rel_path, src_info) :: rest, acc =>
      analyzeSourceLoop dest_files rest
        (match dest_files.lookup rel_path with
         | none => { acc with to_copy := acc.to_copy ++ [rel_path] }
         | some di =>
             if needs_update src_info di then
               { acc with to_update := acc.to_update ++ [rel_path] }
             else
               { acc with unchanged := acc.unchanged ++ [rel_path] })

/-- The second loop of `analyze_differences`: destination relpaths
absent from the source go to `to_delete`. -/
def analyzeDeleteLoop (source_files : Inventory) :
    Inventory → DiffResult → DiffResult
  | [], acc => acc
  | (rel_path, _) :: rest, acc =>
      analyzeDeleteLoop source_files rest
        (if (source_files.lookup rel_path).isSome then acc
         else { acc with to_delete := acc.to_delete ++ [rel_path] })

/-- `FileAnalyzer.analyze_differences`. -/
def analyze_differences (source_files dest_files : Inventory) : DiffResult :=
  analyzeDeleteLoop source_files dest_files
    (analyzeSourceLoop dest_files source_files
      ⟨[], [], [], []⟩)

/-! Closed forms of the two loops: each loop only appends to its
buckets, so the result is the accumulator followed by a filtered list
of keys. -/

/-- Source relpaths absent from the destination (the `to_copy` keys). -/
def copyKeys (dest_files src : Inventory) : List String :=
  (src.filter (fun x => (dest_files.lookup x.1).isNone)).map Prod.fst

/-- Source relpaths present in the destination and needing update. -/
def updateKeys (dest_files src : Inventory) : List String :=
  (src.filter (fun x =>
    match dest_files.lookup x.1 with
    | none => false
    | some di => needs_update x.2 di)).map Prod.fst

/-- Source relpaths present in the destination and unchanged. -/
def unchangedKeys (dest_files src : Inventory) : List String :=
  (src.filter (fun x =>
    match dest_files.lookup x.1 with
    | none => false
    | some di => !needs_update x.2 di)).map Prod.fst

/-- Destination relpaths absent from the source (the `to_delete` keys). -/
def deleteKeys (source_files dst : Inventory) : List String :=
  (dst.filter (fun x => (source_files.lookup x.1).isNone)).map Prod.fst

theorem analyzeSourceLoop_eq (dest_files : Inventory) (src : Inventory)
    (acc : DiffResult) :
    analyzeSourceLoop dest_files src acc =
      { to_copy := acc.to_copy ++ copyKeys dest_files src
        to_update := acc.to_update ++ updateKeys dest_files src
        to_delete := acc.to_delete
        unchanged := acc.unchanged ++ unchangedKeys dest_files src } := by
  induction src generalizing acc with
  | nil => simp [analyzeSourceLoop, copyKeys, updateKeys, unchangedKeys]
  | cons hd tl ih =>
      obtain ⟨p, si⟩ := hd
      simp only [analyzeSourceLoop]
      cases hdst : dest_files.lookup p with
      | none =>
          rw [ih]
          simp [copyKeys, updateKeys, unchangedKeys, List.filter_cons, hdst]
      | some di =>
          cases hnu : needs_update si di with
          | true =>
              rw [ih]
              simp [copyKeys, updateKeys, unchangedKeys, List.filter_cons,
                hdst, hnu]
          | false =>
              rw [ih]
              simp [copyKeys, updateKeys, unchangedKeys, List.filter_cons,
                hdst, hnu]

theorem analyzeDeleteLoop_eq (source_files : Inventory) (dst : Inventory)
    (acc : DiffResult) :
    analyzeDeleteLoop source_files dst acc =
      { acc with to_delete := acc.to_delete ++ deleteKeys source_files dst } := by
  induction dst generalizing acc with
  | nil => simp [analyzeDeleteLoop, deleteKeys]
  | cons hd tl ih =>
      obtain ⟨p, di⟩ := hd
      simp only [analyzeDeleteLoop]
      cases hsrc : source_files.lookup p with
      | some si =>
          rw [ih]
          simp [deleteKeys, List.filter_cons, hsrc]
      | none =>
          rw [ih]
          simp [deleteKeys, List.filter_cons, hsrc]

/-- The closed form of `analyze_differences` itself. -/
theorem analyze_differences_eq (source_files dest_files : Inventory) :
    analyze_differences source_files dest_files =
      { to_copy := copyKeys dest_files source_files
        to_update := updateKeys dest_files source_files
        to_delete := deleteKeys source_files dest_files
        unchanged := unchangedKeys dest_files source_files } := by
  simp [analyze_differences, analyzeSourceLoop_eq, analyzeDeleteLoop_eq]

/-! Membership in the key lists. -/

theorem mem_copyKeys (dest_files src : Inventory) (r : String) :
    r ∈ copyKeys dest_files src ↔
      r ∈ src.map Prod.fst ∧ dest_files.lookup r = none := by
  simp only [copyKeys, List.mem_map, List.mem_filter]
  constructor
  · rintro ⟨⟨q, si⟩, ⟨hmem, hcond⟩, rfl⟩
    exact ⟨⟨⟨q, si⟩, hmem, rfl⟩, Option.isNone_iff_eq_none.mp (by simpa using hcond)⟩
  · rintro ⟨⟨⟨q, si⟩, hmem, rfl⟩, hnone⟩
    exact ⟨⟨q, si⟩, ⟨hmem, by simpa using Option.isNone_iff_eq_none.mpr hnone⟩,
      rfl⟩

theorem mem_updateKeys (dest_files src : Inventory) (r : String) :
    r ∈ updateKeys dest_files src ↔
      ∃ si di, (r, si) ∈ src ∧ dest_files.lookup r = some di ∧
        needs_update si di = true := by
  simp only [updateKeys, List.mem_map, List.mem_filter]
  constructor
  · rintro ⟨⟨q, si⟩, ⟨hmem, hcond⟩, rfl⟩
    cases hdst : List.lookup q dest_files with
    | none => rw [hdst] at hcond; cases hcond
    | some di =>
        rw [hdst] at hcond
        exact ⟨si, di, hmem, rfl, hcond⟩
  · rintro ⟨si, di, hmem, hdst, hnu⟩
    exact ⟨⟨r, si⟩, ⟨hmem, by rw [hdst]; exact hnu⟩, rfl⟩

theorem mem_unchangedKeys (dest_files src : Inventory) (r : String) :
    r ∈ unchangedKeys dest_files src ↔
      ∃ si di, (r, si) ∈ src ∧ dest_files.lookup r = some di ∧
        needs_update si di = false := by
  simp only [unchangedKeys, List.mem_map, List.mem_filter]
  constructor
  · rintro ⟨⟨q, si⟩, ⟨hmem, hcond⟩, rfl⟩
    cases hdst : List.lookup q dest_files with
    | none => rw [hdst] at hcond; cases hcond
    | some di =>
        rw [hdst] at hcond
        exact ⟨si, di, hmem, rfl, by simpa using hcond⟩
  · rintro ⟨si, di, hmem, hdst, hnu⟩
    exact ⟨⟨r, si⟩, ⟨hmem, by rw [hdst]; simpa using hnu⟩, rfl⟩

theorem mem_deleteKeys (source_files dst : Inventory) (r : String) :
    r ∈ deleteKeys source_files dst ↔
      r ∈ dst.map Prod.fst ∧ source_files.lookup r = none := by
  simp only [deleteKeys, List.mem_map, List.mem_filter]
  constructor
  · rintro ⟨⟨q, di⟩, ⟨hmem, hcond⟩, rfl⟩
    exact ⟨⟨⟨q, di⟩, hmem, rfl⟩, Option.isNone_iff_eq_none.mp (by simpa using hcond)⟩
  · rintro ⟨⟨⟨q, di⟩, hmem, rfl⟩, hnone⟩
    exact ⟨⟨q, di⟩, ⟨hmem, by simpa using Option.isNone_iff_eq_none.mpr hnone⟩,
      rfl⟩

end FileAnalyzer

/-! ## Python-dict (association list) facts -/

theorem lookup_eq_none_iff {α β : Type} [BEq α] [LawfulBEq α]
    (l : List (α × β)) (r : α) :
    l.lookup r = none ↔ r ∉ l.map Prod.fst := by
  induction l with
  | nil => simp [List.lookup]
  | cons hd tl ih =>
      obtain ⟨p, b⟩ := hd
      by_cases hrp : r = p
      · subst hrp
        simp [List.lookup]
      · have hbe : (r == p) = false := beq_eq_false_iff_ne.mpr hrp
        simp [List.lookup, hbe, ih, hrp]

theorem lookup_eq_some_iff_mem {α β : Type} [BEq α] [LawfulBEq α]
    {l : List (α × β)} (h : (l.map Prod.fst).Nodup) (r : α) (a : β) :
    l.lookup r = some a ↔ (r, a) ∈ l := by
  induction l with
  | nil => simp [List.lookup]
  | cons hd tl ih =>
      obtain ⟨p, b⟩ := hd
      simp only [List.map_cons, List.nodup_cons] at h
      obtain ⟨hp, htl⟩ := h
      by_cases hrp : r = p
      · subst hrp
        simp only [List.lookup, beq_self_eq_true]
        constructor
        · intro h'
          injection h' with h'
          subst h'
          exact List.mem_cons_self _ _
        · intro hmem
          rcases List.mem_cons.mp hmem with heq | hmem'
          · exact congrArg some (congrArg Prod.snd heq).symm
          · exact absurd (List.mem_map_of_mem Prod.fst hmem') hp
      · have hbe : (r == p) = false := beq_eq_false_iff_ne.mpr hrp
        simp [List.lookup, hbe, ih htl, List.mem_cons, Prod.mk.injEq, hrp]

theorem mem_unique_of_nodup_keys {α β : Type} {l : List (α × β)}
    (h : (l.map Prod.fst).Nodup) {r : α} {a b : β}
    (ha : (r, a) ∈ l) (hb : (r, b) ∈ l) : a = b := by
  induction l with
  | nil => cases ha
  | cons hd tl ih =>
      simp only [List.map_cons, List.nodup_cons] at h
      obtain ⟨hp, htl⟩ := h
      rcases List.mem_cons.mp ha with rfl | ha'
      · rcases List.mem_cons.mp hb with hb' | hb'
        · exact (congrArg Prod.snd hb').symm
        · exact absurd (List.mem_map_of_mem Prod.fst hb') hp
      · rcases List.mem_cons.mp hb with rfl | hb'
        · exact absurd (List.mem_map_of_mem Prod.fst ha') hp
        · exact ih htl ha' hb'

/-! ## Claims C1 and C4 -/

/-- C1: for every pair of inventories, the diff returned by
`FileAnalyzer.analyze_differences` satisfies: `to_copy`, `to_update` and
`unchanged` are pairwise disjoint and their union equals exactly the set
of relpaths of `source_files`, and `to_delete` equals exactly the set of
relpaths present in `dest_files` and absent from `source_files`. -/
theorem C1_analyze_differences_partition
    (source_files dest_files : Inventory)
    (hs : (source_files.map Prod.fst).Nodup)
    (hd : (dest_files.map Prod.fst).Nodup) :
    (∀ r, (r ∈ (FileAnalyzer.analyze_differences source_files dest_files).to_copy ∨
           r ∈ (FileAnalyzer.analyze_differences source_files dest_files).to_update ∨
           r ∈ (FileAnalyzer.analyze_differences source_files dest_files).unchanged) ↔
          r ∈ source_files.map Prod.fst) ∧
    (∀ r, r ∈ (FileAnalyzer.analyze_differences source_files dest_files).to_copy →
          r ∉ (FileAnalyzer.analyze_differences source_files dest_files).to_update) ∧
    (∀ r, r ∈ (FileAnalyzer.analyze_differences source_files dest_files).to_copy →
          r ∉ (FileAnalyzer.analyze_differences source_files dest_files).unchanged) ∧
    (∀ r, r ∈ (FileAnalyzer.analyze_differences source_files dest_files).to_update →
          r ∉ (FileAnalyzer.analyze_differences source_files dest_files).unchanged) ∧
    (∀ r, r ∈ (FileAnalyzer.analyze_differences source_files dest_files).to_delete ↔
          (r ∈ dest_files.map Prod.fst ∧ r ∉ source_files.map Prod.fst)) := by
  rw [FileAnalyzer.analyze_differences_eq]
  refine ⟨?_, ?_, ?_, ?_, ?_⟩
  · intro r
    simp only [FileAnalyzer.mem_copyKeys, FileAnalyzer.mem_updateKeys,
      FileAnalyzer.mem_unchangedKeys]
    constructor
    · rintro (⟨h, -⟩ | ⟨si, di, hmem, -, -⟩ | ⟨si, di, hmem, -, -⟩)
      · exact h
      · exact List.mem_map_of_mem Prod.fst hmem
      · exact List.mem_map_of_mem Prod.fst hmem
    · intro hr
      obtain ⟨⟨q, si⟩, hmem, rfl⟩ := List.mem_map.mp hr
      cases hdst : List.lookup q dest_files with
      | none => exact Or.inl ⟨hr, rfl⟩
      | some di =>
          cases hnu : FileAnalyzer.needs_update si di with
          | true => exact Or.inr (Or.inl ⟨si, di, hmem, rfl, hnu⟩)
          | false => exact Or.inr (Or.inr ⟨si, di, hmem, rfl, hnu⟩)
  · intro r hc hu
    obtain ⟨-, hnone⟩ := (FileAnalyzer.mem_copyKeys _ _ _).mp hc
    obtain ⟨si, di, -, hsome, -⟩ := (FileAnalyzer.mem_updateKeys _ _ _).mp hu
    rw [hnone] at hsome
    cases hsome
  · intro r hc hu
    obtain ⟨-, hnone⟩ := (FileAnalyzer.mem_copyKeys _ _ _).mp hc
    obtain ⟨si, di, -, hsome, -⟩ := (FileAnalyzer.mem_unchangedKeys _ _ _).mp hu
    rw [hnone] at hsome
    cases hsome
  · intro r hu hn
    obtain ⟨si, di, hmem, hsome, htrue⟩ :=
      (FileAnalyzer.mem_updateKeys _ _ _).mp hu
    obtain ⟨si', di', hmem', hsome', hfalse⟩ :=
      (FileAnalyzer.mem_unchangedKeys _ _ _).mp hn
    have hsi : si = si' := mem_unique_of_nodup_keys hs hmem hmem'
    subst hsi
    rw [hsome] at hsome'
    cases hsome'
    rw [htrue] at hfalse
    cases hfalse
  · intro r
    rw [FileAnalyzer.mem_deleteKeys, lookup_eq_none_iff]

/-- Closed witness for `C1_analyze_differences_partition`. -/
theorem C1_witness :
    ((([("a", ⟨1, 0⟩), ("b", ⟨2, 0⟩)] : Inventory).map Prod.fst).Nodup ∧
     (([("b", ⟨2, 0⟩), ("c", ⟨3, 5⟩)] : Inventory).map Prod.fst).Nodup) ∧
    ((∀ r, (r ∈ (FileAnalyzer.analyze_differences
              [("a", ⟨1, 0⟩), ("b", ⟨2, 0⟩)]
              [("b", ⟨2, 0⟩), ("c", ⟨3, 5⟩)]).to_copy ∨
           r ∈ (FileAnalyzer.analyze_differences
              [("a", ⟨1, 0⟩), ("b", ⟨2, 0⟩)]
              [("b", ⟨2, 0⟩), ("c", ⟨3, 5⟩)]).to_update ∨
           r ∈ (FileAnalyzer.analyze_differences
              [("a", ⟨1, 0⟩), ("b", ⟨2, 0⟩)]
              [("b", ⟨2, 0⟩), ("c", ⟨3, 5⟩)]).unchanged) ↔
          r ∈ ([("a", ⟨1, 0⟩), ("b", ⟨2, 0⟩)] : Inventory).map Prod.fst) ∧
    (∀ r, r ∈ (FileAnalyzer.analyze_differences
              [("a", ⟨1, 0⟩), ("b", ⟨2, 0⟩)]
              [("b", ⟨2, 0⟩), ("c", ⟨3, 5⟩)]).to_copy →
          r ∉ (FileAnalyzer.analyze_differences
              [("a", ⟨1, 0⟩), ("b", ⟨2, 0⟩)]
              [("b", ⟨2, 0⟩), ("c", ⟨3, 5⟩)]).to_update) ∧
    (∀ r, r ∈ (FileAnalyzer.analyze_differences
              [("a", ⟨1, 0⟩), ("b", ⟨2, 0⟩)]
              [("b", ⟨2, 0⟩), ("c", ⟨3, 5⟩)]).to_copy →
          r ∉ (FileAnalyzer.analyze_differences
              [("a", ⟨1, 0⟩), ("b", ⟨2, 0⟩)]
              [("b", ⟨2, 0⟩), ("c", ⟨3, 5⟩)]).unchanged) ∧
    (∀ r, r ∈ (FileAnalyzer.analyze_differences
              [("a", ⟨1, 0⟩), ("b", ⟨2, 0⟩)]
              [("b", ⟨2, 0⟩), ("c", ⟨3, 5⟩)]).to_update →
          r ∉ (FileAnalyzer.analyze_differences
              [("a", ⟨1, 0⟩), ("b", ⟨2, 0⟩)]
              [("b", ⟨2, 0⟩), ("c", ⟨3, 5⟩)]).unchanged) ∧
    (∀ r, r ∈ (FileAnalyzer.analyze_differences
              [("a", ⟨1, 0⟩), ("b", ⟨2, 0⟩)]
              [("b", ⟨2, 0⟩), ("c", ⟨3, 5⟩)]).to_delete ↔
          (r ∈ ([("b", ⟨2, 0⟩), ("c", ⟨3, 5⟩)] : Inventory).map Prod.fst ∧
           r ∉ ([("a", ⟨1, 0⟩), ("b", ⟨2, 0⟩)] : Inventory).map Prod.fst))) :=
  ⟨⟨by decide, by decide⟩,
   C1_analyze_differences_partition _ _ (by decide) (by decide)⟩

/-! ## backup_manager.py — the strong comparator and the default diff path -/

/-- The on-disk data `_compare_files` consults: `stat` size, mtime and
mode bits, plus the byte content. -/
structure FileMeta where
  size : Nat
  mtime : ℚ
  mode : Nat
  content : List Nat
  deriving DecidableEq, Repr

/-- An inventory of full file metadata, keyed by relpath. -/
abbrev MetaInventory := List (String × FileMeta)

namespace BackupManager

/-- `CHUNK_SIZE = 8192` used by `_compare_files`. -/
def CMP_CHUNK_SIZE : Nat := 8192

/-- The chunked content-comparison loop of `_compare_files`: read an
8 KB chunk from each file, return `true` (different) on the first
mismatching pair, stop when the source chunk is empty. -/
def contentDiffers (src dst : List Nat) : Bool :=
  if src.take CMP_CHUNK_SIZE ≠ dst.take CMP_CHUNK_SIZE then true
  else if src.take CMP_CHUNK_SIZE = [] then false
  else contentDiffers (src.drop CMP_CHUNK_SIZE) (dst.drop CMP_CHUNK_SIZE)
termination_by src.length
decreasing_by
  simp only [List.length_drop]
  rename_i hne hnil
  have hpos : src ≠ [] := by
    intro h
    subst h
    simp at hnil
  have : 0 < src.length := List.length_pos.mpr hpos
  simp [CMP_CHUNK_SIZE]
  omega

/-- `BackupManager._compare_files` on two existing files, in the order
the code checks: size, mtime with 2 s tolerance, permission bits,
content in 8 KB chunks.  (The Windows-only attribute block is guarded
by `sys.platform == 'win32'` and is skipped here.) -/
def compare_files (source_file dest_file : FileMeta) : Bool × String :=
  if source_file.size ≠ dest_file.size then (true, "Different file size")
  else if |source_file.mtime - dest_file.mtime| > 2 then
    (true, "Different modification time")
  else if source_file.mode ≠ dest_file.mode then
    (true, "Different file permissions")
  else if contentDiffers source_file.content dest_file.content then
    (true, "Different file content")
  else (false, "Files are identical")

/-- The buckets of `BackupManager.analyze_differences` (note: no
`unchanged` bucket in this method). -/
structure BMDiff where
  to_copy : List String
  to_update : List String
  to_delete : List String
  deriving DecidableEq, Repr

/-- First loop of `BackupManager.analyze_differences`: new files go to
`to_copy`; files also present in the destination go to `to_update`
exactly when `_compare_files` reports a difference.  `running` is the
shared `_running` flag, constant during a sequential call. -/
def bmSourceLoop (running : Bool) (dest_files : MetaInventory) :
    MetaInventory → BMDiff → BMDiff
  | [], acc => acc
  | (rel_path, sm) :: rest, acc =>
      if ¬ running then acc
      else bmSourceLoop running dest_files rest
        (match dest_files.lookup rel_path with
         | none => { acc with to_copy := acc.to_copy ++ [rel_path] }
         | some dm =>
             if (compare_files sm dm).1 then
               { acc with to_update := acc.to_update ++ [rel_path] }
             else acc)

/-- Second loop of `BackupManager.analyze_differences`: destination
files with no source counterpart go to `to_delete`. -/
def bmDeleteLoop (running : Bool) (source_files : MetaInventory) :
    MetaInventory → BMDiff → BMDiff
  | [], acc => acc
  | (rel_path, _) :: rest, acc =>
      if ¬ running then acc
      else bmDeleteLoop running source_files rest
        (if (source_files.lookup rel_path).isSome then acc
         else { acc with to_delete := acc.to_delete ++ [rel_path] })

/-- `BackupManager.analyze_differences` — the diff path
`prepare_backup` invokes. -/
def analyze_differences (running : Bool)
    (source_files dest_files : MetaInventory) : BMDiff :=
  bmDeleteLoop running source_files dest_files
    (bmSourceLoop running dest_files source_files ⟨[], [], []⟩)

/-- The chunked comparison is byte-for-byte equality. -/
theorem contentDiffers_eq_false_iff (src dst : List Nat) :
    contentDiffers src dst = false ↔ src = dst := by
  induction src, dst using contentDiffers.induct with
  | case1 src dst hne =>
      rw [contentDiffers, if_pos hne]
      simp only [Bool.true_eq_false, false_iff]
      intro h
      exact hne (by rw [h])
  | case2 src dst heq hnil =>
      rw [contentDiffers, if_neg heq, if_pos hnil]
      push_neg at heq
      have hsrc : src = [] := by
        rcases List.take_eq_nil_iff.mp hnil with h | h
        · exact absurd h (by simp [CMP_CHUNK_SIZE])
        · exact h
      have hdst : dst = [] := by
        subst hsrc
        rcases List.take_eq_nil_iff.mp (heq ▸ hnil) with h | h
        · exact absurd h (by simp [CMP_CHUNK_SIZE])
        · exact h
      simp [hsrc, hdst]
  | case3 src dst heq hnil ih =>
      rw [contentDiffers, if_neg heq, if_neg hnil]
      push_neg at heq
      rw [ih]
      constructor
      · intro h
        calc src = List.take CMP_CHUNK_SIZE src ++ List.drop CMP_CHUNK_SIZE src :=
              (List.take_append_drop _ _).symm
          _ = List.take CMP_CHUNK_SIZE dst ++ List.drop CMP_CHUNK_SIZE dst := by
              rw [heq, h]
          _ = dst := List.take_append_drop _ _
      · intro h
        rw [h]

/-- Unfolding of the strong comparator: it reports "identical" exactly
when size, mtime (within 2 s), permission bits and byte content all
agree. -/
theorem compare_files_fst_false_iff (sm dm : FileMeta) :
    (compare_files sm dm).1 = false ↔
      (sm.size = dm.size ∧ |sm.mtime - dm.mtime| ≤ 2 ∧
       sm.mode = dm.mode ∧ sm.content = dm.content) := by
  unfold compare_files
  by_cases h1 : sm.size = dm.size
  · by_cases h2 : |sm.mtime - dm.mtime| ≤ 2
    · by_cases h3 : sm.mode = dm.mode
      · cases h4 : contentDiffers sm.content dm.content with
        | true =>
            have hne : sm.content ≠ dm.content := by
              intro hc
              rw [(contentDiffers_eq_false_iff _ _).mpr hc] at h4
              cases h4
            simp [h1, not_lt.mpr h2, h3, h4, hne, h2]
        | false =>
            have hc : sm.content = dm.content :=
              (contentDiffers_eq_false_iff _ _).mp h4
            simp [h1, not_lt.mpr h2, h3, h4, hc, h2]
      · simp [h1, not_lt.mpr h2, h3, h2]
    · simp [h1, not_le.mp h2, h2]
  · simp [h1]

/-! Closed form of the has-destination-counterpart bucket of the
default path. -/

/-- Source relpaths the default path marks for update. -/
def bmUpdateKeys (dest_files src : MetaInventory) : List String :=
  (src.filter (fun x =>
    match dest_files.lookup x.1 with
    | none => false
    | some dm => (compare_files x.2 dm).1)).map Prod.fst

theorem bmSourceLoop_to_update (dest_files : MetaInventory)
    (src : MetaInventory) (acc : BMDiff) :
    (bmSourceLoop true dest_files src acc).to_update =
      acc.to_update ++ bmUpdateKeys dest_files src := by
  induction src generalizing acc with
  | nil => simp [bmSourceLoop, bmUpdateKeys]
  | cons hd tl ih =>
      obtain ⟨p, sm⟩ := hd
      simp only [bmSourceLoop, not_true, if_neg, ite_false]
      cases hdst : dest_files.lookup p with
      | none =>
          rw [ih]
          simp [bmUpdateKeys, List.filter_cons, hdst]
      | some dm =>
          cases hc : (compare_files sm dm).1 with
          | true =>
              rw [ih]
              simp [bmUpdateKeys, List.filter_cons, hdst, hc]
          | false =>
              rw [ih]
              simp [bmUpdateKeys, List.filter_cons, hdst, hc]

theorem bmDeleteLoop_to_update (source_files : MetaInventory)
    (dst : MetaInventory) (acc : BMDiff) :
    (bmDeleteLoop true source_files dst acc).to_update = acc.to_update := by
  induction dst generalizing acc with
  | nil => rfl
  | cons hd tl ih =>
      obtain ⟨p, dm⟩ := hd
      simp only [bmDeleteLoop]
      rw [if_neg (by simp)]
      cases (source_files.lookup p).isSome <;> simp [ih]

theorem mem_bmUpdateKeys (dest_files src : MetaInventory) (r : String) :
    r ∈ bmUpdateKeys dest_files src ↔
      ∃ sm dm, (r, sm) ∈ src ∧ dest_files.lookup r = some dm ∧
        (compare_files sm dm).1 = true := by
  simp only [bmUpdateKeys, List.mem_map, List.mem_filter]
  constructor
  · rintro ⟨⟨q, sm⟩, ⟨hmem, hcond⟩, rfl⟩
    cases hdst : List.lookup q dest_files with
    | none => rw [hdst] at hcond; cases hcond
    | some dm =>
        rw [hdst] at hcond
        exact ⟨sm, dm, hmem, rfl, hcond⟩
  · rintro ⟨sm, dm, hmem, hdst, hc⟩
    exact ⟨⟨r, sm⟩, ⟨hmem, by rw [hdst]; exact hc⟩, rfl⟩

end BackupManager

/-! ## Claim C3 -/

/-- C3 counterexample: equal size, equal mtime, equal permissions but
different byte content.  The size/mtime classifier
(`FileAnalyzer.needs_update`) reports "no update", yet the default diff
path (`BackupManager.analyze_differences`, the method `prepare_backup`
invokes) classifies the file as `to_update` — so the default path does
not classify "based only on a size mismatch or an mtime difference
greater than 2 seconds"; it also invokes the stronger comparison. -/
theorem C3_counterexample :
    (BackupManager.analyze_differences true
        [("a", ⟨1, 0, 420, [1]⟩)] [("a", ⟨1, 0, 420, [2]⟩)]).to_update
      = ["a"] ∧
    FileAnalyzer.needs_update ⟨1, 0⟩ ⟨1, 0⟩ = false := by
  constructor
  · have hc : BackupManager.contentDiffers [1] [2] = true := by
      rw [BackupManager.contentDiffers]
      norm_num [BackupManager.CMP_CHUNK_SIZE]
    rw [BackupManager.analyze_differences, BackupManager.bmDeleteLoop_to_update,
      BackupManager.bmSourceLoop_to_update]
    norm_num [BackupManager.bmUpdateKeys, List.filter, List.lookup,
      BackupManager.compare_files, hc]
  · norm_num [FileAnalyzer.needs_update]

/-- C3 as amended: the default diff path marks a source file that also
exists in the destination as `to_update` exactly when the stronger
comparator `_compare_files` reports a difference — i.e. unless size,
mtime (within the 2 s tolerance), permission bits and byte-for-byte
content (compared in fixed 8 KB chunks) all agree; the size/mtime-only
criterion (`FileAnalyzer.needs_update`) is not the criterion of the
default path. -/
theorem C3_default_path_uses_strong_comparator
    (source_files dest_files : MetaInventory) (r : String) :
    r ∈ (BackupManager.analyze_differences true
          source_files dest_files).to_update ↔
      ∃ sm dm, (r, sm) ∈ source_files ∧ dest_files.lookup r = some dm ∧
        ¬ (sm.size = dm.size ∧ |sm.mtime - dm.mtime| ≤ 2 ∧
           sm.mode = dm.mode ∧ sm.content = dm.content) := by
  unfold BackupManager.analyze_differences
  rw [BackupManager.bmDeleteLoop_to_update, BackupManager.bmSourceLoop_to_update]
  simp only [List.nil_append, BackupManager.mem_bmUpdateKeys]
  constructor
  · rintro ⟨sm, dm, hmem, hdst, hc⟩
    refine ⟨sm, dm, hmem, hdst, ?_⟩
    intro hall
    rw [(BackupManager.compare_files_fst_false_iff sm dm).mpr hall] at hc
    cases hc
  · rintro ⟨sm, dm, hmem, hdst, hne⟩
    refine ⟨sm, dm, hmem, hdst, ?_⟩
    cases hc : (BackupManager.compare_files sm dm).1 with
    | true => rfl
    | false =>
        exact absurd ((BackupManager.compare_files_fst_false_iff sm dm).mp hc)
          hne

/-- C4: a pair of records with equal size and mtime difference at most
2 seconds is classified `unchanged`, not `to_update`. -/
theorem C4_tolerance_unchanged
    (source_files dest_files : Inventory) (r : String) (si di : FileInfo)
    (hs : (source_files.map Prod.fst).Nodup)
    (hsi : (r, si) ∈ source_files)
    (hdi : dest_files.lookup r = some di)
    (hsize : si.size = di.size)
    (hmtime : |si.mtime - di.mtime| ≤ 2) :
    r ∈ (FileAnalyzer.analyze_differences source_files dest_files).unchanged ∧
    r ∉ (FileAnalyzer.analyze_differences source_files dest_files).to_update := by
  have hnu : FileAnalyzer.needs_update si di = false := by
    simp [FileAnalyzer.needs_update, hsize, not_lt.mpr hmtime]
  rw [FileAnalyzer.analyze_differences_eq]
  constructor
  · exact (FileAnalyzer.mem_unchangedKeys _ _ _).mpr ⟨si, di, hsi, hdi, hnu⟩
  · intro hu
    obtain ⟨si', di', hmem', hsome', htrue⟩ :=
      (FileAnalyzer.mem_updateKeys _ _ _).mp hu
    have : si = si' := mem_unique_of_nodup_keys hs hsi hmem'
    subst this
    rw [hdi] at hsome'
    cases hsome'
    rw [hnu] at htrue
    cases htrue

/-- Closed witness for `C4_tolerance_unchanged`: equal sizes, mtimes 10
and 11 (difference 1 ≤ 2). -/
theorem C4_witness :
    ((([("a", ⟨7, 10⟩)] : Inventory).map Prod.fst).Nodup ∧
     (("a", (⟨7, 10⟩ : FileInfo)) ∈ ([("a", ⟨7, 10⟩)] : Inventory)) ∧
     (([("a", ⟨7, 11⟩)] : Inventory).lookup "a" = some ⟨7, 11⟩) ∧
     ((⟨7, 10⟩ : FileInfo).size = (⟨7, 11⟩ : FileInfo).size) ∧
     (|(⟨7, (10 : ℚ)⟩ : FileInfo).mtime - (⟨7, 11⟩ : FileInfo).mtime| ≤ 2)) ∧
    ("a" ∈ (FileAnalyzer.analyze_differences
        [("a", ⟨7, 10⟩)] [("a", ⟨7, 11⟩)]).unchanged ∧
     "a" ∉ (FileAnalyzer.analyze_differences
        [("a", ⟨7, 10⟩)] [("a", ⟨7, 11⟩)]).to_update) :=
  ⟨⟨by decide, by decide, by rfl, by rfl, by norm_num⟩,
   C4_tolerance_unchanged [("a", ⟨7, 10⟩)] [("a", ⟨7, 11⟩)] "a" ⟨7, 10⟩ ⟨7, 11⟩
     (by decide) (by decide) (by rfl) (by rfl) (by norm_num)⟩

/-! ## file_handler.py — `FileHandler.delete_path`

A filesystem subtree is an `FSTree`; children are listed in directory
(scandir) order.  `Path.rglob` with the pattern `**/*` yields, for each
directory in top-down pre-order (the directory being globbed first),
that directory's children; `rglobSeq` produces exactly this sequence.
The generator is modelled by its produced sequence, which matches the
lazy iteration here because the loop only deletes entries it has
already passed and aborts on the first exception. -/

/-- A path as its `Path.parts` list of segments. -/
abbrev PathL := List String

inductive FSTree where
  | file (writable : Bool)
  | dir (writable : Bool) (children : List (String × FSTree))

/-- Writability of the entry itself (`os.access(path, os.W_OK)`). -/
def FSTree.writableFlag : FSTree → Bool
  | .file w => w
  | .dir w _ => w

namespace FileHandler

mutual

/-- The sequence `path.rglob('*')` produces for a directory with
children `cs`: first the children of the directory, then, for each
child subdirectory in order, the same sequence prefixed with that
subdirectory's name. -/
def rglobSeq : List (String × FSTree) → List (PathL × FSTree)
  | cs => cs.map (fun x => ([x.1], x.2)) ++ rglobSub cs

/-- The recursive part of `rglobSeq`: descend into subdirectories in
scandir order. -/
def rglobSub : List (String × FSTree) → List (PathL × FSTree)
  | [] => []
  | (_, .file _) :: rest => rglobSub rest
  | (n, .dir _ cs) :: rest =>
      (rglobSeq cs).map (fun y => (n :: y.1, y.2)) ++ rglobSub rest

end

/-- `b` starts with `a` segment-wise. -/
def pathStartsWith : PathL → PathL → Bool
  | [], _ => true
  | _ :: _, [] => false
  | a :: as, b :: bs => a == b && pathStartsWith as bs

/-- `p` is a strict ancestor of `q` (so `q` lives inside directory `p`). -/
def isProperAncestor (p q : PathL) : Bool :=
  pathStartsWith p q && decide (p.length < q.length)

/-- The body of the directory branch of `delete_path`: walk the rglob
sequence, unlinking files and `rmdir`-ing directories as encountered.
`present` is the set of paths still existing; `rmdir` raises `OSError`
(caught as an unexpected error) if the directory still has an entry
inside it.  A non-writable entry raises `FileOperationError`. -/
def processItems : List (PathL × FSTree) → List PathL →
    Except String (List PathL)
  | [], present => .ok present
  | (p, t) :: rest, present =>
      match t with
      | .file w =>
          if ¬ w then .error ("File is not writable: " ++ String.intercalate "/" p)
          else processItems rest (present.erase p)
      | .dir w _ =>
          if ¬ w then .error ("Directory is not writable: " ++ String.intercalate "/" p)
          else if present.any (fun q => isProperAncestor p q) then
            .error "Unexpected error: Directory not empty"
          else processItems rest (present.erase p)

/-- `FileHandler.delete_path`.  `none` models a path that does not
exist (idempotent success).  For a directory the contained entries are
processed in `rglobSeq` order, then the (expected-empty) directory
itself is removed. -/
def delete_path : Option FSTree → Bool × String
  | none => (true, "Path already deleted")
  | some t =>
      if ¬ t.writableFlag then (false, "Path is not writable")
      else
        match t with
        | .file _ => (true, "Path deleted successfully")
        | .dir _ cs =>
            match processItems (rglobSeq cs) ((rglobSeq cs).map Prod.fst) with
            | .error e => (false, e)
            | .ok present =>
                if present.isEmpty then (true, "Path deleted successfully")
                else (false, "Unexpected error: Directory not empty")

end FileHandler

/-! ## Claim C6 -/

/-- The failing input for C6: a writable directory containing a
writable subdirectory `sub` which contains a writable file `f`. -/
def nestedDirInput : FSTree :=
  .dir true [("sub", .dir true [("f", .file true)])]

/-- A flat writable directory (two files, no nesting), on which
`delete_path` does succeed. -/
def flatDirInput : FSTree :=
  .dir true [("a", .file true), ("b", .file true)]

/-- C6 (code bug): `delete_path` on a writable directory containing a
non-empty subdirectory fails — `rglob` yields `sub` before `sub/f`, so
the code calls `rmdir` on `sub` while `f` still exists inside it,
raising `OSError` ("Directory not empty") and returning failure,
instead of deleting bottom-up as the specification describes.  On a
flat directory (no non-empty subdirectory) the same code succeeds. -/
theorem C6_delete_path_nested_dir_fails :
    FileHandler.delete_path (some nestedDirInput)
      = (false, "Unexpected error: Directory not empty") ∧
    FileHandler.delete_path (some flatDirInput)
      = (true, "Path deleted successfully") := by
  constructor
  · simp [nestedDirInput, FileHandler.delete_path, FSTree.writableFlag,
      FileHandler.rglobSeq, FileHandler.rglobSub, FileHandler.processItems,
      FileHandler.isProperAncestor, FileHandler.pathStartsWith, List.erase]
  · simp [flatDirInput, FileHandler.delete_path, FSTree.writableFlag,
      FileHandler.rglobSeq, FileHandler.rglobSub, FileHandler.processItems,
      FileHandler.isProperAncestor, FileHandler.pathStartsWith, List.erase]

/-! ## backup_manager.py — `perform_backup`

`perform_backup` is sequential; the only cross-thread interaction is
the shared `_running` flag, which `stop()` sets to `False` and which
`perform_backup` sets to `True` on entry and polls before each
operation.  The interleaving is embedded by a schedule
`stopSig : Nat → Bool`: `stopSig j = true` means a `stop()` call lands
after the entry assignment and before the `j`-th pre-operation check
(checks are numbered globally across the delete, copy and update
loops).  Once a stop lands the flag stays `False` for the rest of the
run, so the flag observed at check `i` is down exactly when some
`stopSig j` with `j ≤ i` fired. -/

namespace BackupManager

/-- The `report_data` dict.  Times are abstract ticks; per-file entries
record `(path, size)`. -/
structure Report where
  start_time : Option Nat
  end_time : Option Nat
  copied_files : List (String × Nat)
  updated_files : List (String × Nat)
  deleted_files : List String
  errors : List String
  deriving DecidableEq, Repr

/-- The `differences` dict handed to `perform_backup`. -/
structure Differences where
  to_copy : List String
  to_update : List String
  to_delete : List String
  deriving DecidableEq, Repr

/-- The filesystem behaviour `perform_backup` encounters:
existence of each file to delete, whether its `unlink` raises, whether
`copy_file` succeeds for each relpath, the source sizes, and whether
the initial `dest_path.mkdir` raises (the modelled source of an
unexpected exception escaping the per-file handlers). -/
structure Env where
  fileExists : String → Bool
  deleteRaises : String → Bool
  copyOk : String → Bool
  srcSize : String → Nat
  mkdirRaises : Bool

/-- Operation kinds, in the order the loops run. -/
inductive OpKind where
  | del
  | copy
  | update
  deriving DecidableEq, Repr

/-- The flat list of operations in execution order: `to_delete` first,
then `to_copy`, then `to_update`. -/
def opsList (diffs : Differences) : List (OpKind × String) :=
  diffs.to_delete.map (fun p => (OpKind.del, p)) ++
  diffs.to_copy.map (fun p => (OpKind.copy, p)) ++
  diffs.to_update.map (fun p => (OpKind.update, p))

/-- Whether the `_running` flag is already down at check `i`: some stop
event `j ≤ i` has fired. -/
def stopObserved (stopSig : Nat → Bool) (i : Nat) : Bool :=
  (List.range (i + 1)).any stopSig

/-- The per-file body of the loops (everything inside the per-file
`try`): a delete unlinks if the file exists (recording the path, or an
error if `unlink` raises); a copy/update runs `copy_file` and records
the file info on success, an error entry on failure. -/
def applyOp (env : Env) (k : OpKind) (p : String) (rep : Report) : Report :=
  match k with
  | .del =>
      if env.fileExists p then
        if env.deleteRaises p then
          { rep with errors := rep.errors ++ ["Delete error " ++ p] }
        else
          { rep with deleted_files := rep.deleted_files ++ [p] }
      else rep
  | .copy =>
      if env.copyOk p then
        { rep with copied_files := rep.copied_files ++ [(p, env.srcSize p)] }
      else
        { rep with errors := rep.errors ++ ["Error to_copy " ++ p] }
  | .update =>
      if env.copyOk p then
        { rep with updated_files := rep.updated_files ++ [(p, env.srcSize p)] }
      else
        { rep with errors := rep.errors ++ ["Error to_update " ++ p] }

/-- Result of a `perform_backup` run: the returned boolean, the final
`report_data`, how many times `save_report` was invoked, and which
operations were begun (their pre-start check passed). -/
structure RunResult where
  ok : Bool
  report : Report
  saveCalls : Nat
  began : List String
  deriving Repr

/-- The operation loops.  Before starting each operation the flag is
checked; if it is down the function returns `False` immediately — note
that this early return stamps no `end_time` and calls no
`save_report`.  After the last operation `end_time` is stamped, the
report saved, and `True` returned. -/
def runOps (env : Env) (stopSig : Nat → Bool) (now : Nat) :
    List (OpKind × String) → Nat → Report → List String → RunResult
  | [], _, rep, began =>
      { ok := true, report := { rep with end_time := some now },
        saveCalls := 1, began := began }
  | (k, p) :: rest, idx, rep, began =>
      if stopObserved stopSig idx then
        { ok := false, report := rep, saveCalls := 0, began := began }
      else
        runOps env stopSig now rest (idx + 1) (applyOp env k p rep)
          (began ++ [p])

/-- `BackupManager.perform_backup`.  `running0` is the value of
`self._running` on entry; the first statement of the method overwrites
it with `True`, so it is discarded.  If `dest_path.mkdir` raises, the
outer `except` records the error, stamps `end_time`, saves the report
and returns `False`; otherwise the loops run. -/
def perform_backup (running0 : Bool) (env : Env) (stopSig : Nat → Bool)
    (now : Nat) (diffs : Differences) (rep0 : Report) : RunResult :=
  let _running := true
  if env.mkdirRaises then
    { ok := false
      report :=
        { rep0 with
          errors := rep0.errors ++ ["Backup failed"]
          end_time := some now }
      saveCalls := 1
      began := [] }
  else
    runOps env stopSig now (opsList diffs) 0 rep0 []

theorem stopObserved_eq_false_iff (stopSig : Nat → Bool) (i : Nat) :
    stopObserved stopSig i = false ↔ ∀ j ≤ i, stopSig j = false := by
  simp only [stopObserved, List.any_eq_false]
  constructor
  · intro h j hj
    have := h j (List.mem_range.mpr (Nat.lt_succ_of_le hj))
    simpa using this
  · intro h x hx
    have := h x (Nat.le_of_lt_succ (List.mem_range.mp hx))
    simp [this]

/-- If no stop is observed at any check in range, the loops run to the
end: every operation is begun, `end_time` is stamped and the report
saved exactly once. -/
theorem runOps_no_stop (env : Env) (stopSig : Nat → Bool) (now : Nat)
    (ops : List (OpKind × String)) :
    ∀ (idx : Nat) (rep : Report) (began : List String),
    (∀ j < idx + ops.length, stopObserved stopSig j = false) →
    runOps env stopSig now ops idx rep began =
      { ok := true,
        report := { ops.foldl (fun r kp => applyOp env kp.1 kp.2 r) rep with
                    end_time := some now },
        saveCalls := 1, began := began ++ ops.map Prod.snd } := by
  induction ops with
  | nil => intro idx rep began _; simp [runOps]
  | cons hd tl ih =>
      intro idx rep began h
      obtain ⟨k, p⟩ := hd
      rw [runOps, h idx (by simp only [List.length_cons]; omega)]
      simp only [Bool.false_eq_true, if_false]
      rw [ih (idx + 1) (applyOp env k p rep) (began ++ [p])
        (by
          intro j hj
          exact h j (by simp only [List.length_cons] at hj ⊢; omega))]
      simp

/-- If the first stop lands before check `k` (and every earlier check
saw the flag up), the run executes exactly the first `k` operations and
then returns `False` with no `end_time` stamp and no save. -/
theorem runOps_stopped (env : Env) (stopSig : Nat → Bool) (now : Nat)
    (k : Nat) :
    ∀ (ops : List (OpKind × String)) (idx : Nat) (rep : Report)
      (began : List String),
    k < ops.length →
    stopObserved stopSig (idx + k) = true →
    (∀ j, idx ≤ j → j < idx + k → stopObserved stopSig j = false) →
    runOps env stopSig now ops idx rep began =
      { ok := false,
        report := (ops.take k).foldl (fun r kp => applyOp env kp.1 kp.2 r) rep,
        saveCalls := 0,
        began := began ++ (ops.take k).map Prod.snd } := by
  induction k with
  | zero =>
      intro ops idx rep began hlen hstop _
      match ops, hlen with
      | (k', p) :: rest, _ =>
          rw [runOps, show stopObserved stopSig idx = true from by
            simpa using hstop]
          simp
  | succ k ih =>
      intro ops idx rep began hlen hstop hbef
      match ops, hlen with
      | (k', p) :: rest, hlen =>
          rw [runOps, hbef idx (Nat.le_refl idx) (by omega)]
          simp only [Bool.false_eq_true, if_false]
          rw [ih rest (idx + 1) (applyOp env k' p rep) (began ++ [p])
            (by simpa using Nat.lt_of_succ_lt_succ (by simpa using hlen))
            (by rw [show idx + 1 + k = idx + (k + 1) from by omega]; exact hstop)
            (by intro j h1 h2; exact hbef j (by omega) (by omega))]
          simp

end BackupManager

/-! ## Claims C2, C5, C9 -/

/-- C2 counterexample: one file to delete, a `stop()` landing before
the first pre-operation check.  `perform_backup` returns `False` with
`end_time` still unstamped and `save_report` never invoked — so the
claim that the report is stamped and persisted regardless of how the
run ends (including cancellation observed at a pre-operation check) is
false on the code. -/
theorem C2_counterexample :
    (BackupManager.perform_backup true
        ⟨fun _ => true, fun _ => false, fun _ => true, fun _ => 1, false⟩
        (fun j => j == 0) 5
        ⟨[], [], ["x"]⟩
        ⟨some 0, none, [], [], [], []⟩).ok = false ∧
    (BackupManager.perform_backup true
        ⟨fun _ => true, fun _ => false, fun _ => true, fun _ => 1, false⟩
        (fun j => j == 0) 5
        ⟨[], [], ["x"]⟩
        ⟨some 0, none, [], [], [], []⟩).report.end_time = none ∧
    (BackupManager.perform_backup true
        ⟨fun _ => true, fun _ => false, fun _ => true, fun _ => 1, false⟩
        (fun j => j == 0) 5
        ⟨[], [], ["x"]⟩
        ⟨some 0, none, [], [], [], []⟩).saveCalls = 0 :=
  ⟨rfl, rfl, rfl⟩

/-- C2 as amended: when the run ends normally (no stop observed at any
pre-operation check) or through an unexpected exception (the modelled
`mkdir` failure caught by the outer handler), `end_time` is stamped and
`save_report` is invoked before `perform_backup` returns; the
cancellation early-return, by contrast, does neither. -/
theorem C2_report_finalized_on_success_or_exception
    (running0 : Bool) (env : BackupManager.Env) (stopSig : Nat → Bool)
    (now : Nat) (diffs : BackupManager.Differences)
    (rep0 : BackupManager.Report)
    (h : env.mkdirRaises = true ∨
         ∀ j < (BackupManager.opsList diffs).length, stopSig j = false) :
    (BackupManager.perform_backup running0 env stopSig now diffs
        rep0).report.end_time = some now ∧
    (BackupManager.perform_backup running0 env stopSig now diffs
        rep0).saveCalls = 1 := by
  cases hmk : env.mkdirRaises with
  | true => simp [BackupManager.perform_backup, hmk]
  | false =>
      rcases h with h | hns
      · rw [h] at hmk
        cases hmk
      · have hall : ∀ j < 0 + (BackupManager.opsList diffs).length,
            BackupManager.stopObserved stopSig j = false := by
          intro j hj
          rw [BackupManager.stopObserved_eq_false_iff]
          intro i hi
          exact hns i (by omega)
        simp [BackupManager.perform_backup, hmk,
          BackupManager.runOps_no_stop env stopSig now
            (BackupManager.opsList diffs) 0 rep0 [] hall]

/-- Closed witness for `C2_report_finalized_on_success_or_exception`:
a run with one copy operation and no stop events. -/
theorem C2_witness :
    ((⟨fun _ => true, fun _ => false, fun _ => true, fun _ => 1, false⟩ :
        BackupManager.Env).mkdirRaises = true ∨
      ∀ j < (BackupManager.opsList ⟨["c"], [], []⟩).length,
        (fun _ => false : Nat → Bool) j = false) ∧
    ((BackupManager.perform_backup true
        ⟨fun _ => true, fun _ => false, fun _ => true, fun _ => 1, false⟩
        (fun _ => false) 7 ⟨["c"], [], []⟩
        ⟨some 0, none, [], [], [], []⟩).report.end_time = some 7 ∧
     (BackupManager.perform_backup true
        ⟨fun _ => true, fun _ => false, fun _ => true, fun _ => 1, false⟩
        (fun _ => false) 7 ⟨["c"], [], []⟩
        ⟨some 0, none, [], [], [], []⟩).saveCalls = 1) :=
  ⟨Or.inr (fun _ _ => rfl),
   C2_report_finalized_on_success_or_exception true
     ⟨fun _ => true, fun _ => false, fun _ => true, fun _ => 1, false⟩
     (fun _ => false) 7 ⟨["c"], [], []⟩ ⟨some 0, none, [], [], [], []⟩
     (Or.inr (fun _ _ => rfl))⟩

/-- C5: if the first stop lands before pre-operation check `k` (with
`k` operations still pending after it), `perform_backup` returns
failure, exactly the first `k` operations are begun (each runs to
completion, reflected in the report), and no later operation is ever
started. -/
theorem C5_stop_mid_batch_returns_failure
    (running0 : Bool) (env : BackupManager.Env) (stopSig : Nat → Bool)
    (now : Nat) (diffs : BackupManager.Differences)
    (rep0 : BackupManager.Report) (k : Nat)
    (hmk : env.mkdirRaises = false)
    (hk : k < (BackupManager.opsList diffs).length)
    (hstop : BackupManager.stopObserved stopSig k = true)
    (hbefore : ∀ j < k, BackupManager.stopObserved stopSig j = false) :
    (BackupManager.perform_backup running0 env stopSig now diffs rep0).ok
        = false ∧
    (BackupManager.perform_backup running0 env stopSig now diffs rep0).began
        = ((BackupManager.opsList diffs).take k).map Prod.snd ∧
    (BackupManager.perform_backup running0 env stopSig now diffs rep0).report
        = ((BackupManager.opsList diffs).take k).foldl
            (fun r kp => BackupManager.applyOp env kp.1 kp.2 r) rep0 := by
  have hrun := BackupManager.runOps_stopped env stopSig now k
    (BackupManager.opsList diffs) 0 rep0 [] hk
    (by simpa using hstop)
    (by intro j _ hj; exact hbefore j (by omega))
  simp [BackupManager.perform_backup, hmk, hrun]

/-- Closed witness for `C5_stop_mid_batch_returns_failure`: two files
to delete, a stop landing before the second check — only the first
delete is begun. -/
theorem C5_witness :
    ((⟨fun _ => true, fun _ => false, fun _ => true, fun _ => 1, false⟩ :
        BackupManager.Env).mkdirRaises = false ∧
     1 < (BackupManager.opsList ⟨[], [], ["a", "b"]⟩).length ∧
     BackupManager.stopObserved (fun j => j == 1) 1 = true ∧
     (∀ j < 1, BackupManager.stopObserved (fun j => j == 1) j = false)) ∧
    ((BackupManager.perform_backup true
        ⟨fun _ => true, fun _ => false, fun _ => true, fun _ => 1, false⟩
        (fun j => j == 1) 9 ⟨[], [], ["a", "b"]⟩
        ⟨some 0, none, [], [], [], []⟩).ok = false ∧
     (BackupManager.perform_backup true
        ⟨fun _ => true, fun _ => false, fun _ => true, fun _ => 1, false⟩
        (fun j => j == 1) 9 ⟨[], [], ["a", "b"]⟩
        ⟨some 0, none, [], [], [], []⟩).began =
       ((BackupManager.opsList ⟨[], [], ["a", "b"]⟩).take 1).map Prod.snd ∧
     (BackupManager.perform_backup true
        ⟨fun _ => true, fun _ => false, fun _ => true, fun _ => 1, false⟩
        (fun j => j == 1) 9 ⟨[], [], ["a", "b"]⟩
        ⟨some 0, none, [], [], [], []⟩).report =
       ((BackupManager.opsList ⟨[], [], ["a", "b"]⟩).take 1).foldl
         (fun r kp => BackupManager.applyOp
           ⟨fun _ => true, fun _ => false, fun _ => true, fun _ => 1, false⟩
           kp.1 kp.2 r)
         ⟨some 0, none, [], [], [], []⟩) :=
  ⟨⟨rfl, by decide, by decide, by decide⟩,
   C5_stop_mid_batch_returns_failure true
     ⟨fun _ => true, fun _ => false, fun _ => true, fun _ => 1, false⟩
     (fun j => j == 1) 9 ⟨[], [], ["a", "b"]⟩
     ⟨some 0, none, [], [], [], []⟩ 1 rfl (by decide) (by decide) (by decide)⟩

/-- C9: `perform_backup` starts by setting `self._running = True`, so
its result is independent of the flag value on entry — a `stop()`
issued before the run begins is not observed; and if no stop lands
after entry (and `mkdir` does not raise), the run completes
successfully. -/
theorem C9_entry_resets_running_flag
    (running0 : Bool) (env : BackupManager.Env) (stopSig : Nat → Bool)
    (now : Nat) (diffs : BackupManager.Differences)
    (rep0 : BackupManager.Report) :
    BackupManager.perform_backup running0 env stopSig now diffs rep0 =
      BackupManager.perform_backup true env stopSig now diffs rep0 ∧
    (env.mkdirRaises = false → (∀ j, stopSig j = false) →
      (BackupManager.perform_backup running0 env stopSig now diffs
          rep0).ok = true) := by
  constructor
  · rfl
  · intro hmk hns
    have hall : ∀ j < 0 + (BackupManager.opsList diffs).length,
        BackupManager.stopObserved stopSig j = false := by
      intro j _
      rw [BackupManager.stopObserved_eq_false_iff]
      intro i _
      exact hns i
    simp [BackupManager.perform_backup, hmk,
      BackupManager.runOps_no_stop env stopSig now
        (BackupManager.opsList diffs) 0 rep0 [] hall]

/-- Closed witness for `C9_entry_resets_running_flag`: the flag is
`False` on entry (a stop issued before the run), yet the run succeeds. -/
theorem C9_witness :
    ((⟨fun _ => true, fun _ => false, fun _ => true, fun _ => 1, false⟩ :
        BackupManager.Env).mkdirRaises = false ∧
     ∀ j, (fun _ => false : Nat → Bool) j = false) ∧
    (BackupManager.perform_backup false
        ⟨fun _ => true, fun _ => false, fun _ => true, fun _ => 1, false⟩
        (fun _ => false) 3 ⟨["c"], [], []⟩
        ⟨some 0, none, [], [], [], []⟩ =
      BackupManager.perform_backup true
        ⟨fun _ => true, fun _ => false, fun _ => true, fun _ => 1, false⟩
        (fun _ => false) 3 ⟨["c"], [], []⟩
        ⟨some 0, none, [], [], [], []⟩ ∧
     (BackupManager.perform_backup false
        ⟨fun _ => true, fun _ => false, fun _ => true, fun _ => 1, false⟩
        (fun _ => false) 3 ⟨["c"], [], []⟩
        ⟨some 0, none, [], [], [], []⟩).ok = true) :=
  ⟨⟨rfl, fun _ => rfl⟩,
   (C9_entry_resets_running_flag false
      ⟨fun _ => true, fun _ => false, fun _ => true, fun _ => 1, false⟩
      (fun _ => false) 3 ⟨["c"], [], []⟩ ⟨some 0, none, [], [], [], []⟩).1,
   (C9_entry_resets_running_flag false
      ⟨fun _ => true, fun _ => false, fun _ => true, fun _ => 1, false⟩
      (fun _ => false) 3 ⟨["c"], [], []⟩
      ⟨some 0, none, [], [], [], []⟩).2 rfl (fun _ => rfl)⟩

/-! ## file_queue.py — `FileQueue`

Paths are their `Path.parts` lists (`PathL`).  Priorities are
rationals: the code computes them with `+`, `-` and comparisons only,
which ℚ models exactly for every value reachable here.  The module
uses CPython's `heapq`; `siftdownLoop`, `siftupLoop`, `heappush` and
`heappop` below embed `heapq._siftdown`, `heapq._siftup`,
`heapq.heappush` and `heapq.heappop` (the indices these algorithms
access are always in range on the lists the code builds; the
out-of-range `Option` fallbacks are never taken then). -/

namespace FileQueue

/-- `OperationType`, an enum whose value is the base priority. -/
inductive OperationType where
  | DELETE
  | MOVE
  | UPDATE
  | COPY
  deriving DecidableEq, Repr

/-- The enum `value` (base priority). -/
def OperationType.value : OperationType → Nat
  | .DELETE => 100
  | .MOVE => 80
  | .UPDATE => 60
  | .COPY => 40

/-- `FileOperation` dataclass. -/
structure FileOperation where
  path : PathL
  operation : OperationType
  size : Nat
  priority : ℚ
  dependencies : List PathL
  original_path : Option PathL
  deriving DecidableEq, Repr

/-- `FileOperation.__lt__`: `a < b` iff `a.priority > b.priority`
(so `heapq`'s min-heap pops the highest priority). -/
def opLt (a b : FileOperation) : Bool :=
  decide (a.priority > b.priority)

/-- `heapq._siftdown(heap, startpos, pos)` with `newitem = heap[pos]`
held in a local: walk up from `pos`, moving parents down while
`newitem < parent`, then place `newitem`. -/
def siftdownLoop (newitem : FileOperation) (heap : List FileOperation)
    (startpos pos : Nat) : List FileOperation :=
  if _h : startpos < pos then
    let parentpos := (pos - 1) / 2
    match heap.get? parentpos with
    | some parent =>
        if opLt newitem parent then
          siftdownLoop newitem (heap.set pos parent) startpos parentpos
        else heap.set pos newitem
    | none => heap.set pos newitem
  else heap.set pos newitem
termination_by pos
decreasing_by
  have := Nat.div_le_self (pos - 1) 2
  omega

/-- `heapq.heappush`: append, then sift the new item up from the last
position. -/
def heappush (heap : List FileOperation) (item : FileOperation) :
    List FileOperation :=
  siftdownLoop item (heap ++ [item]) 0 heap.length

/-- The child `heapq._siftup` moves up: the left child `2*pos+1`,
unless a right child exists and is not greater (by `__lt__`) than the
left one. -/
def chooseChild (heap : List FileOperation) (pos : Nat) : Nat :=
  if 2 * pos + 2 < heap.length then
    match heap.get? (2 * pos + 1), heap.get? (2 * pos + 2) with
    | some c, some r => if ¬ opLt c r then 2 * pos + 2 else 2 * pos + 1
    | _, _ => 2 * pos + 1
  else 2 * pos + 1

/-- The leaf-chasing loop of `heapq._siftup`: repeatedly move the
chosen child up into `pos` until `pos` has no child, returning the
shifted array and the final position. -/
def siftupLoop (heap : List FileOperation) (pos : Nat) :
    List FileOperation × Nat :=
  if _h : 2 * pos + 1 < heap.length then
    match heap.get? (chooseChild heap pos) with
    | some child => siftupLoop (heap.set pos child) (chooseChild heap pos)
    | none => (heap, pos)
  else (heap, pos)
termination_by heap.length - pos
decreasing_by
  simp only [List.length_set]
  have h1 : 2 * pos + 1 ≤ chooseChild heap pos := by
    rw [chooseChild]
    split
    · split
      · split <;> omega
      · omega
    · omega
  omega

/-- `heapq._siftup(heap, pos)`: hold `newitem = heap[pos]`, chase the
smaller-child path to a leaf, then sift `newitem` down (up the tree)
from the final position. -/
def siftup (heap : List FileOperation) (pos : Nat) : List FileOperation :=
  match heap.get? pos with
  | none => heap
  | some newitem =>
      let chased := siftupLoop heap pos
      siftdownLoop newitem chased.1 pos chased.2

/-- `heapq.heappop`: pop the last element; if the heap is still
non-empty, the root is returned and the last element is sifted into its
place.  `none` models the `IndexError` on an empty heap (callers guard
with `while self.queue`). -/
def heappop (heap : List FileOperation) :
    Option (FileOperation × List FileOperation) :=
  match heap.getLast? with
  | none => none
  | some lastelt =>
      let rest := heap.dropLast
      if rest.isEmpty then some (lastelt, [])
      else
        match rest.get? 0 with
        | some returnitem => some (returnitem, siftup (rest.set 0 lastelt) 0)
        | none => none

/-! The queue state and its methods. -/

/-- The attributes of a `FileQueue` the scheduling claims touch.  The
`in_progress` and `completed` dicts are association lists (unique keys,
insertion order). -/
structure State where
  queue : List FileOperation
  in_progress : List (PathL × FileOperation)
  completed : List (PathL × FileOperation)
  total_size : Nat
  speed_samples : List (ℚ × ℚ)
  deriving Repr

def SMALL_FILE_THRESHOLD : Nat := 10 * 1024 * 1024
def LARGE_FILE_THRESHOLD : Nat := 100 * 1024 * 1024
def SMALL_FILE_BONUS : ℚ := 20
def LARGE_FILE_PENALTY : ℚ := 10
def DEPTH_PENALTY : ℚ := 5
def MAX_COMPLETED_ITEMS : Nat := 1000
def COMPLETED_CLEANUP_THRESHOLD : Nat := 1200
def MAX_SPEED_SAMPLES : Nat := 100

/-- Python-dict insertion `d[k] = v`: overwrite in place if the key
exists, else append. -/
def dictInsert (l : List (PathL × FileOperation)) (k : PathL)
    (v : FileOperation) : List (PathL × FileOperation) :=
  if (l.lookup k).isSome then
    l.map (fun kv => if kv.1 = k then (k, v) else kv)
  else l ++ [(k, v)]

/-- Python-dict `d.pop(k)` (key known present): drop the entry. -/
def dictPop (l : List (PathL × FileOperation)) (k : PathL) :
    List (PathL × FileOperation) :=
  l.filter (fun kv => decide (kv.1 ≠ k))

/-- A Python runtime error surfaced by the embedded code. -/
inductive PyError where
  | attributeError
  deriving DecidableEq, Repr

/-- `FileQueue._cleanup_completed`.  When the dict exceeds the
threshold the code runs
`sorted(self.completed.items(), key=lambda x: x[1].get('completion_time', 0))`,
but the dict's values are `FileOperation` dataclass instances, which
have no method `get`; `sorted` evaluates the key on the (necessarily
non-empty) items and raises `AttributeError`, so the intended trim to
`MAX_COMPLETED_ITEMS` never happens.  Below the threshold nothing is
done. -/
def cleanup_completed (completed : List (PathL × FileOperation)) :
    Except PyError (List (PathL × FileOperation)) :=
  if completed.length > COMPLETED_CLEANUP_THRESHOLD then
    .error .attributeError
  else .ok completed

/-- `FileQueue._cleanup_speed_samples`: keep the most recent
`MAX_SPEED_SAMPLES` entries (`self.speed_samples[-MAX_SPEED_SAMPLES:]`). -/
def cleanup_speed_samples (samples : List (ℚ × ℚ)) : List (ℚ × ℚ) :=
  if samples.length > MAX_SPEED_SAMPLES then
    samples.drop (samples.length - MAX_SPEED_SAMPLES)
  else samples

/-- `FileQueue._calculate_priority`: base priority from the operation
type, small-file bonus / large-file penalty, minus `5 * len(path.parts)`. -/
def calculate_priority (path : PathL) (size : Nat)
    (op_type : OperationType) : ℚ :=
  let priority : ℚ := op_type.value
  let priority :=
    if size < SMALL_FILE_THRESHOLD then priority + SMALL_FILE_BONUS
    else if size > LARGE_FILE_THRESHOLD then priority - LARGE_FILE_PENALTY
    else priority
  priority - (path.length : ℚ) * DEPTH_PENALTY

/-- The `while current.parts` loop of `FileQueue._add_dependencies`. -/
def depsLoop : PathL → List PathL
  | [] => []
  | s :: rest => (s :: rest) :: depsLoop (s :: rest).dropLast
termination_by current => current.length
decreasing_by
  simp only [List.length_dropLast, List.length_cons]
  omega

/-- `FileQueue._add_dependencies`: every ancestor directory of `path`,
innermost first. -/
def add_dependencies (path : PathL) : List PathL :=
  depsLoop path.dropLast

/-- `FileQueue.add_operation`: build the operation (priority and
dependencies computed), push it on the heap, add its size, then run
`_cleanup_completed` — whose `AttributeError`, when it fires, is logged
and re-raised by `add_operation`'s handler. -/
def add_operation (st : State) (path : PathL) (size : Nat)
    (op_type : OperationType) (original_path : Option PathL) :
    Except PyError State :=
  let priority := calculate_priority path size op_type
  let operation : FileOperation :=
    ⟨path, op_type, size, priority, add_dependencies path, original_path⟩
  let st1 : State :=
    { st with queue := heappush st.queue operation
              total_size := st.total_size + size }
  match cleanup_completed st1.completed with
  | .error e => .error e
  | .ok c => .ok { st1 with completed := c }

/-- `FileQueue.get_next_operation`, with explicit fuel for the
`while self.queue` loop: pop the top operation; if all its dependencies
are in `completed`, move it to `in_progress` and return it; otherwise
re-push it with priority lowered by `0.1` and loop.  `none` models the
loop failing to terminate within `fuel` iterations; `some (none, st)`
is the `return None` on an empty queue. -/
def get_next_operation (fuel : Nat) (st : State) :
    Option (Option FileOperation × State) :=
  match fuel with
  | 0 => none
  | fuel + 1 =>
      match heappop st.queue with
      | none => some (none, st)
      | some (operation, rest) =>
          if operation.dependencies.all
              (fun dep => (st.completed.lookup dep).isSome) then
            some (some operation,
              { st with
                queue := rest
                in_progress := dictInsert st.in_progress operation.path
                  operation })
          else
            get_next_operation fuel
              { st with
                queue := heappush rest
                  { operation with priority := operation.priority - 1/10 } }

/-- `FileQueue.complete_operation`: move an entry from `in_progress`
to `completed` (no cleanup runs here). -/
def complete_operation (st : State) (path : PathL) : State :=
  match st.in_progress.lookup path with
  | none => st
  | some op =>
      { st with
        in_progress := dictPop st.in_progress path
        completed := dictInsert st.completed path op }

/-! Heap facts used by the scheduling claims. -/

/-- The `heapq` invariant under `FileOperation.__lt__`: every non-root
position is not less (by `__lt__`) than its parent, i.e. its priority
is at most the parent's. -/
def heapInv (heap : List FileOperation) : Prop :=
  ∀ i x y, 0 < i → heap.get? i = some x →
    heap.get? ((i - 1) / 2) = some y → x.priority ≤ y.priority

/-- In a heap, the root has maximal priority. -/
theorem heapInv_root_dominates {heap : List FileOperation}
    (hinv : heapInv heap) :
    ∀ i x r, heap.get? i = some x → heap.get? 0 = some r →
      x.priority ≤ r.priority := by
  intro i
  induction i using Nat.strong_induction_on with
  | _ i ih =>
      intro x r hx hr
      cases i with
      | zero =>
          rw [hx] at hr
          injection hr with h
          exact le_of_eq (congrArg FileOperation.priority h)
      | succ n =>
          have hlen : n + 1 < heap.length := (List.get?_eq_some.mp hx).1
          have hplen : (n + 1 - 1) / 2 < heap.length := by
            have := Nat.div_le_self (n + 1 - 1) 2
            omega
          have hy : heap.get? ((n + 1 - 1) / 2) =
              some (heap.get ⟨(n + 1 - 1) / 2, hplen⟩) :=
            List.get?_eq_get hplen
          calc x.priority
              ≤ (heap.get ⟨(n + 1 - 1) / 2, hplen⟩).priority :=
                hinv (n + 1) x _ (Nat.succ_pos n) hx hy
            _ ≤ r.priority := by
                refine ih ((n + 1 - 1) / 2) ?_ _ r hy hr
                have := Nat.div_le_self (n + 1 - 1) 2
                omega

/-- `heappop` on a non-empty heap returns the root. -/
theorem heappop_cons (a : FileOperation) (tl : List FileOperation) :
    ∃ rest, heappop (a :: tl) = some (a, rest) := by
  cases tl with
  | nil => exact ⟨[], rfl⟩
  | cons b tl2 =>
      obtain ⟨L, hL⟩ : ∃ L, (a :: b :: tl2).getLast? = some L :=
        ⟨_, List.getLast?_eq_getLast _ (by simp)⟩
      exact ⟨FileQueue.siftup ((a :: b :: tl2).dropLast.set 0 L) 0,
        by rw [heappop, hL]; rfl⟩

/-- After `cleanup_speed_samples`, at most `MAX_SPEED_SAMPLES` samples
remain (this half of claim C7 does hold). -/
theorem cleanup_speed_samples_length_le (samples : List (ℚ × ℚ)) :
    (cleanup_speed_samples samples).length ≤ MAX_SPEED_SAMPLES := by
  rw [cleanup_speed_samples]
  split
  · simp only [List.length_drop]
    omega
  · omega

end FileQueue

/-! ## Claim C7 -/

/-- A completed operation used to populate the `completed` dict. -/
def c7_dummyOp : FileQueue.FileOperation := ⟨[], .COPY, 0, 0, [], none⟩

/-- A `completed` dict with 1201 distinct keys — reachable by adding
1300 operations (cleanup finds `completed` empty each time), dequeuing
and completing 1201 of them (`complete_operation` never cleans up). -/
def c7_completed : List (PathL × FileQueue.FileOperation) :=
  (List.range 1201).map (fun i => (List.replicate i "a", c7_dummyOp))

def c7_state : FileQueue.State := ⟨[], [], c7_completed, 0, []⟩

def c7_state2 : FileQueue.State :=
  ⟨[], [(["q"], c7_dummyOp)], c7_completed, 0, []⟩

/-- C7 (code bug): the `completed` map is not in fact bounded.  With
1201 completed entries (past the 1200 threshold), `add_operation` —
the only caller of `_cleanup_completed` besides `_reset_metrics` —
raises `AttributeError` instead of trimming, because the cleanup sorts
with the key `x[1].get('completion_time', 0)` and `FileOperation` has
no method `get`.  `complete_operation` itself never triggers cleanup,
so the map grows to 1202 entries, beyond the threshold.  The
speed-sample half of the claim does hold
(`FileQueue.cleanup_speed_samples_length_le`), restated here as the
last conjunct. -/
theorem C7_completed_map_not_bounded :
    FileQueue.add_operation c7_state ["f.txt"] 0 .COPY none =
      .error .attributeError ∧
    (FileQueue.complete_operation c7_state2 ["q"]).completed.length = 1202 ∧
    1202 > FileQueue.COMPLETED_CLEANUP_THRESHOLD ∧
    (∀ samples, (FileQueue.cleanup_speed_samples samples).length ≤
      FileQueue.MAX_SPEED_SAMPLES) := by
  have hlen : c7_completed.length = 1201 := by
    simp [c7_completed]
  have hclean : FileQueue.cleanup_completed c7_completed =
      .error .attributeError := by
    rw [FileQueue.cleanup_completed, if_pos]
    rw [hlen]
    norm_num [FileQueue.COMPLETED_CLEANUP_THRESHOLD]
  refine ⟨?_, ?_, by norm_num [FileQueue.COMPLETED_CLEANUP_THRESHOLD],
    FileQueue.cleanup_speed_samples_length_le⟩
  · simp only [FileQueue.add_operation, c7_state]
    rw [hclean]
  · have hnotin : (["q"] : PathL) ∉ c7_completed.map Prod.fst := by
      simp only [c7_completed, List.map_map, List.mem_map, List.mem_range,
        Function.comp]
      rintro ⟨i, hi, heq⟩
      have hlen1 := congrArg List.length heq
      simp only [List.length_replicate, List.length_cons,
        List.length_nil] at hlen1
      subst hlen1
      simp [List.replicate] at heq
    have hnone : c7_completed.lookup (["q"] : PathL) = none :=
      (lookup_eq_none_iff _ _).mpr hnotin
    rw [FileQueue.complete_operation]
    have hip : (c7_state2.in_progress).lookup (["q"] : PathL) =
        some c7_dummyOp := rfl
    rw [hip]
    simp [c7_state2, FileQueue.dictInsert, hnone, hlen]

/-! ## Claim C10 -/

/-- C10: under the precondition that every queued operation's
dependencies are all present in `completed` (and the queue array is a
well-formed `heapq` heap, which `heappush` maintains), one iteration of
the `while` loop suffices for any fuel: `get_next_operation` returns
`None` on an empty queue, and otherwise an operation of the queue of
maximal priority — the result is the same for every positive fuel, so
the loop terminates.  (Without the precondition the loop can spin
forever, since a blocked operation is re-inserted with priority reduced
by 0.1 rather than removed.) -/
theorem C10_get_next_operation_terminates
    (st : FileQueue.State) (fuel : Nat)
    (hheap : FileQueue.heapInv st.queue)
    (hdeps : ∀ op ∈ st.queue, ∀ dep ∈ op.dependencies,
      (st.completed.lookup dep).isSome = true)
    (hfuel : 0 < fuel) :
    (st.queue = [] →
      FileQueue.get_next_operation fuel st = some (none, st)) ∧
    (st.queue ≠ [] →
      ∃ op st2,
        FileQueue.get_next_operation fuel st = some (some op, st2) ∧
        op ∈ st.queue ∧
        ∀ op2 ∈ st.queue, op2.priority ≤ op.priority) := by
  obtain ⟨fuel, rfl⟩ : ∃ f, fuel = f + 1 := ⟨fuel - 1, by omega⟩
  constructor
  · intro hq
    rw [FileQueue.get_next_operation, hq]
    rfl
  · intro hq
    obtain ⟨a, tl, hqeq⟩ : ∃ a tl, st.queue = a :: tl := by
      cases hcase : st.queue with
      | nil => exact absurd hcase hq
      | cons a tl => exact ⟨a, tl, rfl⟩
    obtain ⟨rest, hpop⟩ := FileQueue.heappop_cons a tl
    have hall : a.dependencies.all
        (fun dep => (st.completed.lookup dep).isSome) = true := by
      rw [List.all_eq_true]
      intro dep hdep
      exact hdeps a (by rw [hqeq]; exact List.mem_cons_self a tl) dep hdep
    refine ⟨a,
      { st with
        queue := rest
        in_progress := FileQueue.dictInsert st.in_progress a.path a },
      ?_, by rw [hqeq]; exact List.mem_cons_self a tl, ?_⟩
    · rw [FileQueue.get_next_operation, hqeq, hpop]
      dsimp only
      rw [if_pos hall]
    · intro op2 hop2
      have hroot : st.queue.get? 0 = some a := by rw [hqeq]; rfl
      obtain ⟨i, hi⟩ := List.get?_of_mem hop2
      exact FileQueue.heapInv_root_dominates hheap i op2 a hi hroot

def c10_op1 : FileQueue.FileOperation := ⟨["a"], .DELETE, 0, 50, [], none⟩

def c10_op2 : FileQueue.FileOperation := ⟨["b"], .COPY, 0, 30, [], none⟩

def c10_state : FileQueue.State := ⟨[c10_op1, c10_op2], [], [], 0, []⟩

/-- Closed witness for `C10_get_next_operation_terminates`: a two
element heap with no dependencies. -/
theorem C10_witness :
    (FileQueue.heapInv c10_state.queue ∧
     (∀ op ∈ c10_state.queue, ∀ dep ∈ op.dependencies,
       (c10_state.completed.lookup dep).isSome = true) ∧
     0 < 1) ∧
    ((c10_state.queue = [] →
       FileQueue.get_next_operation 1 c10_state = some (none, c10_state)) ∧
     (c10_state.queue ≠ [] →
       ∃ op st2,
         FileQueue.get_next_operation 1 c10_state = some (some op, st2) ∧
         op ∈ c10_state.queue ∧
         ∀ op2 ∈ c10_state.queue, op2.priority ≤ op.priority)) := by
  have hinv : FileQueue.heapInv c10_state.queue := by
    intro i x y h0 hx hy
    rcases i with _ | _ | n
    · exact absurd h0 (lt_irrefl 0)
    · norm_num [c10_state, List.get?] at hx hy
      subst hx
      subst hy
      norm_num [c10_op1, c10_op2]
    · norm_num [c10_state, List.get?] at hx
      exact Option.noConfusion hx
  have hdeps : ∀ op ∈ c10_state.queue, ∀ dep ∈ op.dependencies,
      (c10_state.completed.lookup dep).isSome = true := by
    intro op hop dep hdep
    simp only [c10_state, List.mem_cons, List.not_mem_nil, or_false] at hop
    rcases hop with rfl | rfl <;> simp [c10_op1, c10_op2] at hdep
  exact ⟨⟨hinv, hdeps, by norm_num⟩,
    C10_get_next_operation_terminates c10_state 1 hinv hdeps (by norm_num)⟩

/-! ## Claim C8 -/

/-- A previously-completed directory operation (dependency target). -/
def c8_dep : FileQueue.FileOperation := ⟨[], .COPY, 0, 0, [], none⟩

/-- `completed` holding the ancestor directories of operation B. -/
def c8_completed : List (PathL × FileQueue.FileOperation) :=
  [(["x"], c8_dep), (["x", "y"], c8_dep)]

/-- A: `DELETE`, depth 1: priority `100 + 20 - 5 = 115`. -/
def c8_opA : FileQueue.FileOperation :=
  ⟨["old.txt"], .DELETE, 0, 115, [], none⟩

/-- B: `COPY`, depth 3, 5 MB: priority `40 + 20 - 15 = 45`. -/
def c8_opB : FileQueue.FileOperation :=
  ⟨["x", "y", "b.bin"], .COPY, 5 * 1024 * 1024, 45, [["x", "y"], ["x"]],
    none⟩

/-- C: `COPY`, depth 1, 200 MB: priority `40 - 10 - 5 = 25`. -/
def c8_opC : FileQueue.FileOperation :=
  ⟨["c.bin"], .COPY, 200 * 1024 * 1024, 25, [], none⟩

def c8_st0 : FileQueue.State := ⟨[], [], c8_completed, 0, []⟩

def c8_stA : FileQueue.State := ⟨[c8_opA], [], c8_completed, 0, []⟩

def c8_stAB : FileQueue.State :=
  ⟨[c8_opA, c8_opB], [], c8_completed, 5 * 1024 * 1024, []⟩

def c8_stABC : FileQueue.State :=
  ⟨[c8_opA, c8_opB, c8_opC], [], c8_completed, 205 * 1024 * 1024, []⟩

def c8_stA2 : FileQueue.State :=
  ⟨[c8_opB, c8_opC], [(["old.txt"], c8_opA)], c8_completed,
    205 * 1024 * 1024, []⟩

def c8_stB2 : FileQueue.State :=
  ⟨[c8_opC], [(["old.txt"], c8_opA), (["x", "y", "b.bin"], c8_opB)],
    c8_completed, 205 * 1024 * 1024, []⟩

def c8_stC2 : FileQueue.State :=
  ⟨[], [(["old.txt"], c8_opA), (["x", "y", "b.bin"], c8_opB),
        (["c.bin"], c8_opC)], c8_completed, 205 * 1024 * 1024, []⟩

/-- C8: enqueuing A (DELETE, depth 1), B (COPY, depth 3, 5 MB) and
C (COPY, depth 1, 200 MB) with B's dependencies already completed,
successive `get_next_operation` calls return A, then B (priority
`40 + 20 - 15 = 45`), then C (priority `40 - 10 - 5 = 25`). -/
theorem C8_scheduler_dequeue_order :
    FileQueue.add_operation c8_st0 ["old.txt"] 0 .DELETE none =
      .ok c8_stA ∧
    FileQueue.add_operation c8_stA ["x", "y", "b.bin"] (5 * 1024 * 1024)
      .COPY none = .ok c8_stAB ∧
    FileQueue.add_operation c8_stAB ["c.bin"] (200 * 1024 * 1024)
      .COPY none = .ok c8_stABC ∧
    FileQueue.get_next_operation 1 c8_stABC = some (some c8_opA, c8_stA2) ∧
    FileQueue.get_next_operation 1 c8_stA2 = some (some c8_opB, c8_stB2) ∧
    FileQueue.get_next_operation 1 c8_stB2 = some (some c8_opC, c8_stC2) ∧
    c8_opA.operation = .DELETE ∧
    c8_opB.priority = 40 + 20 - 15 ∧
    c8_opC.priority = 40 - 10 - 5 := by
  have e1 : FileQueue.calculate_priority ["old.txt"] 0 .DELETE = 115 := by
    norm_num [FileQueue.calculate_priority, FileQueue.OperationType.value,
      FileQueue.SMALL_FILE_THRESHOLD, FileQueue.SMALL_FILE_BONUS,
      FileQueue.LARGE_FILE_THRESHOLD, FileQueue.LARGE_FILE_PENALTY,
      FileQueue.DEPTH_PENALTY]
  have e2 : FileQueue.calculate_priority ["x", "y", "b.bin"]
      (5 * 1024 * 1024) .COPY = 45 := by
    norm_num [FileQueue.calculate_priority, FileQueue.OperationType.value,
      FileQueue.SMALL_FILE_THRESHOLD, FileQueue.SMALL_FILE_BONUS,
      FileQueue.LARGE_FILE_THRESHOLD, FileQueue.LARGE_FILE_PENALTY,
      FileQueue.DEPTH_PENALTY]
  have e3 : FileQueue.calculate_priority ["c.bin"] (200 * 1024 * 1024)
      .COPY = 25 := by
    norm_num [FileQueue.calculate_priority, FileQueue.OperationType.value,
      FileQueue.SMALL_FILE_THRESHOLD, FileQueue.SMALL_FILE_BONUS,
      FileQueue.LARGE_FILE_THRESHOLD, FileQueue.LARGE_FILE_PENALTY,
      FileQueue.DEPTH_PENALTY]
  have d1 : FileQueue.add_dependencies ["old.txt"] = [] := by
    simp [FileQueue.add_dependencies, FileQueue.depsLoop]
  have d2 : FileQueue.add_dependencies ["x", "y", "b.bin"] =
      [["x", "y"], ["x"]] := by
    simp [FileQueue.add_dependencies, FileQueue.depsLoop]
  have d3 : FileQueue.add_dependencies ["c.bin"] = [] := by
    simp [FileQueue.add_dependencies, FileQueue.depsLoop]
  have hclean : FileQueue.cleanup_completed c8_completed =
      .ok c8_completed := by
    rw [FileQueue.cleanup_completed, if_neg]
    norm_num [c8_completed, FileQueue.COMPLETED_CLEANUP_THRESHOLD]
  have p1 : FileQueue.heappush [] c8_opA = [c8_opA] := by
    rw [FileQueue.heappush, FileQueue.siftdownLoop]
    norm_num
  have p2 : FileQueue.heappush [c8_opA] c8_opB = [c8_opA, c8_opB] := by
    rw [FileQueue.heappush, FileQueue.siftdownLoop]
    norm_num [FileQueue.opLt, c8_opA, c8_opB, List.get?]
  have p3 : FileQueue.heappush [c8_opA, c8_opB] c8_opC =
      [c8_opA, c8_opB, c8_opC] := by
    rw [FileQueue.heappush, FileQueue.siftdownLoop]
    norm_num [FileQueue.opLt, c8_opA, c8_opC, List.get?]
  have A1 : FileQueue.add_operation c8_st0 ["old.txt"] 0 .DELETE none =
      .ok c8_stA := by
    simp only [FileQueue.add_operation, e1, d1, c8_st0]
    rw [show (⟨["old.txt"], .DELETE, 0, 115, [], none⟩ :
        FileQueue.FileOperation) = c8_opA from rfl, p1, hclean]
    simp [c8_stA]
  have A2 : FileQueue.add_operation c8_stA ["x", "y", "b.bin"]
      (5 * 1024 * 1024) .COPY none = .ok c8_stAB := by
    simp only [FileQueue.add_operation, e2, d2, c8_stA]
    rw [show (⟨["x", "y", "b.bin"], .COPY, 5 * 1024 * 1024, 45,
        [["x", "y"], ["x"]], none⟩ :
        FileQueue.FileOperation) = c8_opB from rfl, p2, hclean]
    simp [c8_stAB]
  have A3 : FileQueue.add_operation c8_stAB ["c.bin"]
      (200 * 1024 * 1024) .COPY none = .ok c8_stABC := by
    simp only [FileQueue.add_operation, e3, d3, c8_stAB]
    rw [show (⟨["c.bin"], .COPY, 200 * 1024 * 1024, 25, [], none⟩ :
        FileQueue.FileOperation) = c8_opC from rfl, p3, hclean]
    simp [c8_stABC]
  have q1 : FileQueue.heappop [c8_opA, c8_opB, c8_opC] =
      some (c8_opA, [c8_opB, c8_opC]) := by
    have hlast : ([c8_opA, c8_opB, c8_opC]).getLast? = some c8_opC := rfl
    rw [FileQueue.heappop, hlast]
    dsimp only [List.dropLast, List.isEmpty, List.set, List.get?]
    rw [FileQueue.siftup]
    dsimp only [List.get?]
    rw [FileQueue.siftupLoop]
    norm_num [FileQueue.chooseChild, List.get?, FileQueue.opLt,
      c8_opB, c8_opC]
    rw [FileQueue.siftupLoop]
    norm_num [List.set, List.get?]
    rw [FileQueue.siftdownLoop]
    norm_num [FileQueue.opLt, c8_opB, c8_opC, List.get?, List.set]
  have q2 : FileQueue.heappop [c8_opB, c8_opC] =
      some (c8_opB, [c8_opC]) := by
    have hlast : ([c8_opB, c8_opC]).getLast? = some c8_opC := rfl
    rw [FileQueue.heappop, hlast]
    dsimp only [List.dropLast, List.isEmpty, List.set, List.get?]
    rw [FileQueue.siftup]
    dsimp only [List.get?]
    rw [FileQueue.siftupLoop]
    norm_num [List.set, List.get?]
    rw [FileQueue.siftdownLoop]
    norm_num [List.set]
  have q3 : FileQueue.heappop [c8_opC] = some (c8_opC, []) := rfl
  have g1 : FileQueue.get_next_operation 1 c8_stABC =
      some (some c8_opA, c8_stA2) := by
    rw [show (1 : Nat) = 0 + 1 from rfl, FileQueue.get_next_operation]
    rw [show c8_stABC.queue = [c8_opA, c8_opB, c8_opC] from rfl, q1]
    dsimp only
    rw [if_pos (show (c8_opA.dependencies.all
      (fun dep => (c8_stABC.completed.lookup dep).isSome)) = true
      from rfl)]
    rfl
  have g2 : FileQueue.get_next_operation 1 c8_stA2 =
      some (some c8_opB, c8_stB2) := by
    rw [show (1 : Nat) = 0 + 1 from rfl, FileQueue.get_next_operation]
    rw [show c8_stA2.queue = [c8_opB, c8_opC] from rfl, q2]
    dsimp only
    rw [if_pos (show (c8_opB.dependencies.all
      (fun dep => (c8_stA2.completed.lookup dep).isSome)) = true
      from rfl)]
    rfl
  have g3 : FileQueue.get_next_operation 1 c8_stB2 =
      some (some c8_opC, c8_stC2) := by
    rw [show (1 : Nat) = 0 + 1 from rfl, FileQueue.get_next_operation]
    rw [show c8_stB2.queue = [c8_opC] from rfl, q3]
    dsimp only
    rw [if_pos (show (c8_opC.dependencies.all
      (fun dep => (c8_stB2.completed.lookup dep).isSome)) = true
      from rfl)]
    rfl
  exact ⟨A1, A2, A3, g1, g2, g3, rfl, by norm_num [c8_opB],
    by norm_num [c8_opC]⟩

end BackupTool
